import Mathlib

/-!
Verification of the cargo-guppy dependency-graph engine against its
specification.  The definitions below are a shallow embedding of the Rust
sources: `target-spec/src/evaluator.rs` and `types.rs` (the cfg-expression
evaluator), `guppy/src/graph/graph_impl.rs` (the package graph, `verify`,
`DependsCache::depends_on`, `DependencyReq::eval`), and
`guppy/src/graph/feature/build.rs` (feature-graph construction).  Machine
types become `Nat`/`String`, fallible Rust functions return `Except`, and
graphs are explicit edge lists.
-/

/-! ## Platform descriptors (target-spec/src/platform.rs and the external platforms database)

The `platforms` crate is an external database mapping a triple to its
attributes.  A `Platform` value here stands for one database entry: the
evaluator only reads the triple, `target_os`, `target_env`, `target_arch`
and the target-feature set. -/

/-- Operating system attribute of a platform, as the `platforms` crate's `OS`
enum.  Only the variants the evaluator distinguishes are named; every other
OS is carried by `other` together with its `as_str` form. -/
inductive OS where
  | windows
  | linux
  | macos
  | other (name : String)
  deriving DecidableEq, Repr

/-- The `as_str` form of an `OS` value, used by `target_os = "..."` tests. -/
def OS.asStr : OS → String
  | .windows => "windows"
  | .linux => "linux"
  | .macos => "macos"
  | .other name => name

/-- `TargetFeatures` from target-spec/src/platform.rs: match all target
features, or only an explicit set. -/
inductive TargetFeaturesM where
  | all
  | features (feats : List String)
  deriving DecidableEq, Repr

/-- `TargetFeatures::matches`: true for the `All` sentinel, membership test
for an explicit set. -/
def TargetFeaturesM.matches : TargetFeaturesM → String → Bool
  | .all, _ => true
  | .features fs, f => fs.contains f

/-- A platform descriptor: a triple together with the attributes the
embedded platforms database derives from it (target-spec/src/platform.rs,
`Platform`). -/
structure Platform where
  triple : String
  targetOS : OS
  targetEnv : Option String
  targetArch : String
  targetFeatures : TargetFeaturesM
  deriving DecidableEq, Repr

/-- The database entry for `x86_64-unknown-linux-gnu`. -/
def x8664LinuxGnu : Platform :=
  { triple := "x86_64-unknown-linux-gnu"
    targetOS := .linux
    targetEnv := some "gnu"
    targetArch := "x86_64"
    targetFeatures := .all }

/-- The database entry for `x86_64-pc-windows-msvc`. -/
def x8664WindowsMsvc : Platform :=
  { triple := "x86_64-pc-windows-msvc"
    targetOS := .windows
    targetEnv := some "msvc"
    targetArch := "x86_64"
    targetFeatures := .all }

/-! ## Target-spec expressions and the evaluator (target-spec/src/types.rs, evaluator.rs) -/

/-- `EvalError` from target-spec/src/evaluator.rs.  `InvalidSpec` carries a
parse error in the source; the payload is irrelevant to evaluation and is
dropped here. -/
inductive EvalError where
  | invalidSpec
  | targetNotFound
  | unknownOption (opt : String)
  deriving DecidableEq, Repr

/-- `Expr` from target-spec/src/types.rs.  The source's `TestSet(Atom)` and
`TestEqual((Atom, Atom))` only ever hold `Atom::Ident` on the left and
`Atom::Value` on the right (the parser produces nothing else; the evaluator's
remaining arm is `unreachable!`), so the strings are inlined here. -/
inductive Expr where
  | any (exprs : List Expr)
  | all (exprs : List Expr)
  | not (e : Expr)
  | testSet (family : String)
  | testEqual (name value : String)

/-- `TargetEnum` from target-spec/src/types.rs: a bare triple or a parsed
`cfg(...)` expression. -/
inductive TargetEnum where
  | triple (t : String)
  | spec (e : Expr)

mutual

/-- `eval_expr` from target-spec/src/evaluator.rs, evaluating a `cfg(...)`
expression against a platform. -/
def evalExpr (platform : Platform) : Expr → Except EvalError Bool
  | .any exprs => evalAnyAux platform exprs
  | .all exprs => evalAllAux platform exprs
  | .not e =>
    match evalExpr platform e with
    | .ok b => .ok (!b)
    | .error err => .error err
  | .testSet family =>
    if family = "windows" then .ok (decide (platform.targetOS = .windows))
    else if family = "unix" then
      .ok (decide (platform.targetOS = .linux) || decide (platform.targetOS = .macos))
    else if family = "test" || family = "debug_assertions" || family = "proc_macro" then
      -- Known families that always evaluate to false.
      .ok false
    else
      -- An unknown family.
      .error (.unknownOption family)
  | .testEqual name value =>
    if name = "target_os" then .ok (decide (value = platform.targetOS.asStr))
    else if name = "target_env" then .ok (decide (value = platform.targetEnv.getD ""))
    else if name = "target_arch" then .ok (decide (value = platform.targetArch))
    else if name = "target_vendor" then .ok (decide (value = "unknown"))
    else if name = "feature" then .ok false
    else if name = "target_feature" then .ok (platform.targetFeatures.matches value)
    else .error (.unknownOption name)

/-- The `Expr::Any` loop of `eval_expr`: left to right, return at the first
`Ok(true)` or the first error, `Ok(false)` when the list runs out. -/
def evalAnyAux (platform : Platform) : List Expr → Except EvalError Bool
  | [] => .ok false
  | e :: rest =>
    match evalExpr platform e with
    | .ok true => .ok true
    | .ok false => evalAnyAux platform rest
    | .error err => .error err

/-- The `Expr::All` loop of `eval_expr`: left to right, return at the first
`Ok(false)` or the first error, `Ok(true)` when the list runs out. -/
def evalAllAux (platform : Platform) : List Expr → Except EvalError Bool
  | [] => .ok true
  | e :: rest =>
    match evalExpr platform e with
    | .ok true => evalAllAux platform rest
    | .ok false => .ok false
    | .error err => .error err

end

/-- `eval_target` from target-spec/src/evaluator.rs: a bare triple matches by
string equality with the platform's triple, a `cfg()` spec is evaluated. -/
def evalTarget (target : TargetEnum) (platform : Platform) : Except EvalError Bool :=
  match target with
  | .triple t => .ok (decide (platform.triple = t))
  | .spec e => evalExpr platform e

/-- Skipping a prefix of operands that evaluate to `Ok(false)` does not
change the result of the `any` loop. -/
theorem evalAnyAux_append_false (platform : Platform) (pre rest : List Expr)
    (h : ∀ e' ∈ pre, evalExpr platform e' = .ok false) :
    evalAnyAux platform (pre ++ rest) = evalAnyAux platform rest := by
  induction pre with
  | nil => rfl
  | cons e pre ih =>
    have he : evalExpr platform e = .ok false := h e (List.mem_cons_self e pre)
    have hrest : ∀ e' ∈ pre, evalExpr platform e' = .ok false :=
      fun e' he' => h e' (List.mem_cons_of_mem e he')
    simp [evalAnyAux, he, ih hrest]

/-- Skipping a prefix of operands that evaluate to `Ok(true)` does not
change the result of the `all` loop. -/
theorem evalAllAux_append_true (platform : Platform) (pre rest : List Expr)
    (h : ∀ e' ∈ pre, evalExpr platform e' = .ok true) :
    evalAllAux platform (pre ++ rest) = evalAllAux platform rest := by
  induction pre with
  | nil => rfl
  | cons e pre ih =>
    have he : evalExpr platform e = .ok true := h e (List.mem_cons_self e pre)
    have hrest : ∀ e' ∈ pre, evalExpr platform e' = .ok true :=
      fun e' he' => h e' (List.mem_cons_of_mem e he')
    simp [evalAllAux, he, ih hrest]

/-- Claim C6: `any(e1, ..., en)` returns true at the first operand (left to
right) that evaluates true, and `all(e1, ..., en)` returns false at the first
operand that evaluates false, without evaluating later operands; an error in
an operand after the deciding one is not surfaced, while an error reached
before the result is decided propagates; `any()` of an empty list is false
and `all()` of an empty list is true.  The last conjunct exhibits this
concretely: on Linux, `any(unix, bogus)` is `Ok(true)` even though `bogus`
alone evaluates to `UnknownOption`. -/
theorem eval_short_circuit (platform : Platform) (pre : List Expr) (e : Expr)
    (post : List Expr) :
    (evalExpr platform (.any []) = .ok false) ∧
    (evalExpr platform (.all []) = .ok true) ∧
    ((∀ e' ∈ pre, evalExpr platform e' = .ok false) → evalExpr platform e = .ok true →
      evalExpr platform (.any (pre ++ e :: post)) = .ok true) ∧
    ((∀ e' ∈ pre, evalExpr platform e' = .ok true) → evalExpr platform e = .ok false →
      evalExpr platform (.all (pre ++ e :: post)) = .ok false) ∧
    (∀ err, (∀ e' ∈ pre, evalExpr platform e' = .ok false) →
      evalExpr platform e = .error err →
      evalExpr platform (.any (pre ++ e :: post)) = .error err) ∧
    (∀ err, (∀ e' ∈ pre, evalExpr platform e' = .ok true) →
      evalExpr platform e = .error err →
      evalExpr platform (.all (pre ++ e :: post)) = .error err) ∧
    (evalExpr x8664LinuxGnu (.any [.testSet "unix", .testSet "bogus"]) = .ok true) ∧
    (evalExpr x8664LinuxGnu (.testSet "bogus") = .error (.unknownOption "bogus")) := by
  refine ⟨rfl, rfl, ?_, ?_, ?_, ?_,
    by simp [evalExpr, evalAnyAux, x8664LinuxGnu],
    by simp [evalExpr, x8664LinuxGnu]⟩
  · intro hpre he
    rw [evalExpr, evalAnyAux_append_false platform pre _ hpre]
    simp [evalAnyAux, he]
  · intro hpre he
    rw [evalExpr, evalAllAux_append_true platform pre _ hpre]
    simp [evalAllAux, he]
  · intro err hpre he
    rw [evalExpr, evalAnyAux_append_false platform pre _ hpre]
    simp [evalAnyAux, he]
  · intro err hpre he
    rw [evalExpr, evalAllAux_append_true platform pre _ hpre]
    simp [evalAllAux, he]

/-- Claim C7: for every platform, a bare-identifier test evaluates as:
`windows` is true iff the OS is Windows; `unix` is true iff the OS is Linux
or MacOS; `test`, `debug_assertions` and `proc_macro` are always false; any
other identifier fails with `UnknownOption` naming that identifier. -/
theorem testSet_semantics (platform : Platform) :
    (evalExpr platform (.testSet "windows") = .ok true ↔ platform.targetOS = .windows) ∧
    (evalExpr platform (.testSet "unix") = .ok true ↔
      (platform.targetOS = .linux ∨ platform.targetOS = .macos)) ∧
    (evalExpr platform (.testSet "windows") = .ok false ↔ platform.targetOS ≠ .windows) ∧
    (evalExpr platform (.testSet "unix") = .ok false ↔
      ¬(platform.targetOS = .linux ∨ platform.targetOS = .macos)) ∧
    (evalExpr platform (.testSet "test") = .ok false) ∧
    (evalExpr platform (.testSet "debug_assertions") = .ok false) ∧
    (evalExpr platform (.testSet "proc_macro") = .ok false) ∧
    (∀ family, family ∉ ["windows", "unix", "test", "debug_assertions", "proc_macro"] →
      evalExpr platform (.testSet family) = .error (.unknownOption family)) := by
  refine ⟨?_, ?_, ?_, ?_, rfl, rfl, rfl, ?_⟩
  · simp [evalExpr]
  · simp [evalExpr]
  · simp [evalExpr]
  · simp [evalExpr]
  · intro family hf
    simp only [List.mem_cons, List.mem_singleton, not_or] at hf
    obtain ⟨h1, h2, h3, h4, h5⟩ := hf
    simp [evalExpr, h1, h2, h3, h4, h5]

/-! ## Dependency requirements and their platform status (guppy/src/graph/graph_impl.rs) -/

/-- `DependencyStatus` from guppy/src/graph/graph_impl.rs: whether a
dependency (or its default features) is included on a specific platform. -/
inductive DependencyStatus where
  | mandatory
  | optional
  | never
  deriving DecidableEq, Repr

/-- `Error` from guppy/src/errors.rs.  Payloads that the claims never
inspect (the underlying command, JSON errors) are dropped; `TargetEvalError`
keeps the platform string and the boxed `EvalError`. -/
inductive Error where
  | commandError
  | metadataParseError
  | packageGraphConstructError (msg : String)
  | unknownPackageId (id : String)
  | unknownFeatureId (id : String) (feature : Option String)
  | unknownCurrentPlatform
  | targetEvalError (platform : String) (err : EvalError)
  | packageGraphInternalError (msg : String)
  deriving DecidableEq

/-- `TargetPredicate` from guppy/src/graph/graph_impl.rs: `Always`, or a
list of target specs where the empty list means never. -/
inductive TargetPredicate where
  | always
  | specs (specs : List TargetEnum)

/-- The loop of `TargetPredicate::eval` over a spec list: first error
propagates, first spec that matches yields true, otherwise false. -/
def evalSpecsAux (platform : Platform) : List TargetEnum → Except EvalError Bool
  | [] => .ok false
  | s :: rest =>
    match evalTarget s platform with
    | .ok true => .ok true
    | .ok false => evalSpecsAux platform rest
    | .error err => .error err

/-- `TargetPredicate::eval` from guppy/src/graph/graph_impl.rs.  The source
takes the platform as a triple string and looks it up while evaluating each
spec; here the looked-up descriptor is passed directly. -/
def TargetPredicate.eval (tp : TargetPredicate) (platform : Platform) :
    Except EvalError Bool :=
  match tp with
  | .always => .ok true
  | .specs ss => evalSpecsAux platform ss

/-- `TargetPredicate::is_empty` from guppy/src/graph/graph_impl.rs. -/
def TargetPredicate.isEmpty : TargetPredicate → Bool
  | .always => false
  | .specs ss => ss.isEmpty

/-- `DependencyReqImpl` from guppy/src/graph/graph_impl.rs: one half
(mandatory or optional) of a dependency requirement. -/
structure DependencyReqImpl where
  buildIf : TargetPredicate
  defaultFeaturesIf : TargetPredicate
  targetFeatures : List (Option TargetEnum × List String)

/-- The `Default` instance of `DependencyReqImpl`: both predicates are the
empty (never-matching) spec list. -/
def DependencyReqImpl.default : DependencyReqImpl :=
  { buildIf := .specs []
    defaultFeaturesIf := .specs []
    targetFeatures := [] }

/-- `DependencyReq` from guppy/src/graph/graph_impl.rs: the mandatory and
optional halves of one dependency kind. -/
structure DependencyReq where
  mandatory : DependencyReqImpl
  optional : DependencyReqImpl

/-- `DependencyReq::eval` from guppy/src/graph/graph_impl.rs, applied to a
projection of each half to one of its predicates: Mandatory if the mandatory
half's predicate holds, else Optional if the optional half's holds, else
Never; evaluation errors become `TargetEvalError` for the platform. -/
def DependencyReq.evalReq (req : DependencyReq)
    (predFn : DependencyReqImpl → TargetPredicate) (platform : Platform) :
    Except Error DependencyStatus :=
  match (predFn req.mandatory).eval platform with
  | .error err => .error (.targetEvalError platform.triple err)
  | .ok true => .ok .mandatory
  | .ok false =>
    match (predFn req.optional).eval platform with
    | .error err => .error (.targetEvalError platform.triple err)
    | .ok true => .ok .optional
    | .ok false => .ok .never

/-- `DependencyReq::build_status_on` from guppy/src/graph/graph_impl.rs. -/
def DependencyReq.buildStatusOn (req : DependencyReq) (platform : Platform) :
    Except Error DependencyStatus :=
  req.evalReq (fun reqImpl => reqImpl.buildIf) platform

/-- `DependencyReq::default_features_on` from guppy/src/graph/graph_impl.rs. -/
def DependencyReq.defaultFeaturesOn (req : DependencyReq) (platform : Platform) :
    Except Error DependencyStatus :=
  req.evalReq (fun reqImpl => reqImpl.defaultFeaturesIf) platform

/-! ### The ingest of declared dependency instances

Modelled from the spec: the metadata-ingest code that populates a
`DependencyReq` from the declared dependency instances (guppy's graph build
module) is not among the source files.  Spec section 4.2 step 3: each
declared instance is assigned to the mandatory or optional half based on
`optional`; its target specifier is merged into `build_if`; if
`uses_default_features` is true it is merged into `default_features_if`; its
features list is recorded under the same target predicate. -/

/-- Modelled from the spec: one declared dependency instance as the manifest
states it (section 6, dependency record fields). -/
structure DeclaredDep where
  optional : Bool
  target : Option TargetEnum
  usesDefaultFeatures : Bool
  features : List String

/-- Modelled from the spec: merging a target specifier into a predicate.  An
instance with no `target` applies unconditionally, making the predicate
`Always`; an instance with a target adds its spec to the list. -/
def TargetPredicate.extendWith (tp : TargetPredicate) (target : Option TargetEnum) :
    TargetPredicate :=
  match target, tp with
  | none, _ => .always
  | some _, .always => .always
  | some t, .specs ss => .specs (ss ++ [t])

/-- Modelled from the spec: folding one declared instance into one half of a
`DependencyReq` (spec section 4.2 step 3). -/
def DependencyReqImpl.addInstance (reqImpl : DependencyReqImpl) (d : DeclaredDep) :
    DependencyReqImpl :=
  { buildIf := reqImpl.buildIf.extendWith d.target
    defaultFeaturesIf :=
      if d.usesDefaultFeatures then reqImpl.defaultFeaturesIf.extendWith d.target
      else reqImpl.defaultFeaturesIf
    targetFeatures := reqImpl.targetFeatures ++ [(d.target, d.features)] }

/-- Modelled from the spec: building the `DependencyReq` for one kind from
all declared instances contributing to that kind. -/
def DependencyReq.fromDeclared (ds : List DeclaredDep) : DependencyReq :=
  ds.foldl
    (fun req d =>
      if d.optional then { req with optional := req.optional.addInstance d }
      else { req with mandatory := req.mandatory.addInstance d })
    { mandatory := DependencyReqImpl.default
      optional := DependencyReqImpl.default }

/-- A dependency declared once in a plain `[dependencies]` section: not
optional, no target. -/
def plainDep : DependencyReq :=
  DependencyReq.fromDeclared
    [{ optional := false
       target := none
       usesDefaultFeatures := true
       features := [] }]

/-- A dependency declared only under `[target.'cfg(windows)'.dependencies]`. -/
def windowsOnlyDep : DependencyReq :=
  DependencyReq.fromDeclared
    [{ optional := false
       target := some (.spec (.testSet "windows"))
       usesDefaultFeatures := true
       features := [] }]

/-- Claim C1: whenever both halves' `build_if` predicates evaluate without
error, `build_status_on` returns Mandatory if the mandatory half's predicate
is true, otherwise Optional if the optional half's is true, otherwise Never.
In particular a plain `[dependencies]` dependency is Mandatory on every
platform, and a dependency declared only under `cfg(windows)` is Never on
`x86_64-unknown-linux-gnu` and Mandatory on `x86_64-pc-windows-msvc`. -/
theorem buildStatusOn_spec :
    (∀ (req : DependencyReq) (platform : Platform) (bm bo : Bool),
      req.mandatory.buildIf.eval platform = .ok bm →
      req.optional.buildIf.eval platform = .ok bo →
      req.buildStatusOn platform =
        .ok (if bm then .mandatory else if bo then .optional else .never)) ∧
    (∀ platform : Platform, plainDep.buildStatusOn platform = .ok .mandatory) ∧
    (windowsOnlyDep.buildStatusOn x8664LinuxGnu = .ok .never) ∧
    (windowsOnlyDep.buildStatusOn x8664WindowsMsvc = .ok .mandatory) := by
  refine ⟨?_, ?_, ?_, ?_⟩
  · intro req platform bm bo hm ho
    cases bm with
    | true => simp [DependencyReq.buildStatusOn, DependencyReq.evalReq, hm]
    | false =>
      cases bo with
      | true => simp [DependencyReq.buildStatusOn, DependencyReq.evalReq, hm, ho]
      | false => simp [DependencyReq.buildStatusOn, DependencyReq.evalReq, hm, ho]
  · intro platform
    simp [plainDep, DependencyReq.fromDeclared, DependencyReq.buildStatusOn,
      DependencyReq.evalReq, DependencyReqImpl.addInstance, DependencyReqImpl.default,
      TargetPredicate.extendWith, TargetPredicate.eval]
  · simp [windowsOnlyDep, DependencyReq.fromDeclared, DependencyReq.buildStatusOn,
      DependencyReq.evalReq, DependencyReqImpl.addInstance, DependencyReqImpl.default,
      TargetPredicate.extendWith, TargetPredicate.eval, evalSpecsAux, evalTarget,
      evalExpr, x8664LinuxGnu]
  · simp [windowsOnlyDep, DependencyReq.fromDeclared, DependencyReq.buildStatusOn,
      DependencyReq.evalReq, DependencyReqImpl.addInstance, DependencyReqImpl.default,
      TargetPredicate.extendWith, TargetPredicate.eval, evalSpecsAux, evalTarget,
      evalExpr, x8664WindowsMsvc]

/-! ## Reachability over an edge list

`DependsCache::depends_on` (guppy/src/graph/graph_impl.rs) answers path
existence with petgraph's `has_path_connecting`, and the Cargo resolver's
forward reachability walks the feature graph.  Both are embedded as the
saturation of a step function over an explicit edge list.  `closure es s` is
the set of vertices reachable from the seed set `s` along edges of `es`
(`a` itself included, as `has_path_connecting` discovers the start node). -/

namespace Reach

variable {V : Type} [DecidableEq V]

/-- One-step successors of `x` along the edge list. -/
def succsOf (es : List (V × V)) (x : V) : Finset V :=
  (es.filterMap (fun e => if e.1 = x then some e.2 else none)).toFinset

/-- One round of the reachability walk: keep the set and add every successor
of a member. -/
def stepSet (es : List (V × V)) (s : Finset V) : Finset V :=
  s ∪ s.biUnion (succsOf es)

/-- The walk iterated a given number of rounds. -/
def iterate (es : List (V × V)) : Nat → Finset V → Finset V
  | 0, s => s
  | fuel + 1, s => iterate es fuel (stepSet es s)

/-- Every edge target in the list. -/
def dsts (es : List (V × V)) : Finset V :=
  (es.map Prod.snd).toFinset

/-- The reachable set: enough rounds to saturate (the walk only ever adds
edge targets, so `(s ∪ dsts es).card` rounds suffice). -/
def closure (es : List (V × V)) (s : Finset V) : Finset V :=
  iterate es (s ∪ dsts es).card s

/-- The edge relation of the list. -/
def rel (es : List (V × V)) (x y : V) : Prop :=
  (x, y) ∈ es

theorem mem_succsOf {es : List (V × V)} {x y : V} :
    y ∈ succsOf es x ↔ (x, y) ∈ es := by
  simp only [succsOf, List.mem_toFinset, List.mem_filterMap]
  constructor
  · rintro ⟨e, he, hif⟩
    by_cases h : e.1 = x
    · rw [if_pos h] at hif
      have h2 : e.2 = y := Option.some.inj hif
      have he' : e = (x, y) := Prod.ext h h2
      rw [he'] at he
      exact he
    · rw [if_neg h] at hif
      exact absurd hif (by simp)
  · intro h
    exact ⟨(x, y), h, by simp⟩

theorem subset_stepSet (es : List (V × V)) (s : Finset V) : s ⊆ stepSet es s :=
  Finset.subset_union_left

theorem stepSet_subset_union_dsts (es : List (V × V)) (s : Finset V) :
    stepSet es s ⊆ s ∪ dsts es := by
  intro x hx
  simp only [stepSet, Finset.mem_union, Finset.mem_biUnion] at hx
  rcases hx with hx | ⟨a, _, hx⟩
  · exact Finset.mem_union_left _ hx
  · refine Finset.mem_union_right _ ?_
    rw [mem_succsOf] at hx
    simp only [dsts, List.mem_toFinset, List.mem_map]
    exact ⟨(a, x), hx, rfl⟩

theorem subset_iterate (es : List (V × V)) (n : Nat) (s : Finset V) :
    s ⊆ iterate es n s := by
  induction n generalizing s with
  | zero => exact Finset.Subset.refl s
  | succ n ih =>
    exact Finset.Subset.trans (subset_stepSet es s) (ih (stepSet es s))

theorem iterate_of_saturated {es : List (V × V)} {s : Finset V}
    (h : stepSet es s = s) (n : Nat) : iterate es n s = s := by
  induction n with
  | zero => rfl
  | succ n ih => rw [iterate, h, ih]

theorem iterate_sound {es : List (V × V)} (n : Nat) {s : Finset V} {b : V}
    (hb : b ∈ iterate es n s) : ∃ a ∈ s, Relation.ReflTransGen (rel es) a b := by
  induction n generalizing s with
  | zero => exact ⟨b, hb, Relation.ReflTransGen.refl⟩
  | succ n ih =>
    rw [iterate] at hb
    obtain ⟨c, hc, hcb⟩ := ih hb
    simp only [stepSet, Finset.mem_union, Finset.mem_biUnion] at hc
    rcases hc with hc | ⟨a, ha, hc⟩
    · exact ⟨c, hc, hcb⟩
    · rw [mem_succsOf] at hc
      exact ⟨a, ha, Relation.ReflTransGen.head hc hcb⟩

theorem saturates (es : List (V × V)) :
    ∀ (n : Nat) (s : Finset V), (s ∪ dsts es).card - s.card ≤ n →
      stepSet es (iterate es n s) = iterate es n s := by
  intro n
  induction n with
  | zero =>
    intro s hcard
    have hsub : s ⊆ s ∪ dsts es := Finset.subset_union_left
    have hle : (s ∪ dsts es).card ≤ s.card := by
      have := Finset.card_le_card hsub
      omega
    have heq : s = s ∪ dsts es := Finset.eq_of_subset_of_card_le hsub hle
    have hstep : stepSet es s ⊆ s := by
      calc stepSet es s ⊆ s ∪ dsts es := stepSet_subset_union_dsts es s
        _ = s := heq.symm
    exact Finset.Subset.antisymm hstep (subset_stepSet es s)
  | succ n ih =>
    intro s hcard
    by_cases hsat : stepSet es s = s
    · rw [iterate, hsat, iterate_of_saturated hsat, hsat]
    · have hss : s ⊂ stepSet es s :=
        HasSubset.Subset.ssubset_of_ne (subset_stepSet es s) (Ne.symm hsat)
      have hlt : s.card < (stepSet es s).card := Finset.card_lt_card hss
      have hunion : stepSet es s ∪ dsts es = s ∪ dsts es := by
        apply Finset.Subset.antisymm
        · exact Finset.union_subset
            (stepSet_subset_union_dsts es s) Finset.subset_union_right
        · exact Finset.union_subset
            (Finset.Subset.trans (subset_stepSet es s) Finset.subset_union_left)
            Finset.subset_union_right
      have hcard' : (stepSet es s ∪ dsts es).card - (stepSet es s).card ≤ n := by
        rw [hunion]
        omega
      rw [iterate]
      exact ih (stepSet es s) hcard'

theorem stepSet_closure (es : List (V × V)) (s : Finset V) :
    stepSet es (closure es s) = closure es s :=
  saturates es (s ∪ dsts es).card s (Nat.sub_le _ _)

theorem subset_closure (es : List (V × V)) (s : Finset V) : s ⊆ closure es s :=
  subset_iterate es _ s

theorem closure_complete {es : List (V × V)} {s : Finset V} {a b : V}
    (ha : a ∈ s) (hab : Relation.ReflTransGen (rel es) a b) : b ∈ closure es s := by
  induction hab with
  | refl => exact subset_closure es s ha
  | tail hac hcb ih =>
    rw [← stepSet_closure es s]
    simp only [stepSet, Finset.mem_union, Finset.mem_biUnion]
    right
    exact ⟨_, ih, mem_succsOf.mpr hcb⟩

/-- Membership in `closure` is exactly reachability from the seed set. -/
theorem mem_closure_iff (es : List (V × V)) (s : Finset V) (b : V) :
    b ∈ closure es s ↔ ∃ a ∈ s, Relation.ReflTransGen (rel es) a b := by
  constructor
  · exact iterate_sound _
  · rintro ⟨a, ha, hab⟩
    exact closure_complete ha hab

/-- Monotonicity in the seed set. -/
theorem closure_mono (es : List (V × V)) {s t : Finset V} (hst : s ⊆ t) :
    closure es s ⊆ closure es t := by
  intro b hb
  rw [mem_closure_iff] at hb ⊢
  obtain ⟨a, ha, hab⟩ := hb
  exact ⟨a, hst ha, hab⟩

/-- `has_path_connecting` of petgraph, over an explicit edge list: is there a
directed path (the empty path included) from `a` to `b`? -/
def hasPathConnecting (es : List (V × V)) (a b : V) : Bool :=
  decide (b ∈ closure es {a})

/-- `hasPathConnecting` decides reachability. -/
theorem hasPathConnecting_iff (es : List (V × V)) (a b : V) :
    hasPathConnecting es a b = true ↔ Relation.ReflTransGen (rel es) a b := by
  rw [hasPathConnecting, decide_eq_true_iff, mem_closure_iff]
  simp

end Reach

/-! ## The package graph (guppy/src/graph/graph_impl.rs)

Versions and version requirements live in the external `semver` crate; they
are carried here as their source text, and the crate's matching function is a
parameter `semverMatches` wherever it is consulted.  Package ids are strings,
package indices (`NodeIndex<PackageIx>`) are naturals. -/

/-- `DependencyMetadata` from guppy/src/graph/graph_impl.rs, restricted to
the fields `verify` reads. -/
structure DependencyMetadataM where
  versionReq : String
  dependencyReq : DependencyReq

/-- `DependencyEdge` from guppy/src/graph/graph_impl.rs: up to three
dependency-metadata payloads, one per kind. -/
structure DependencyEdgeM where
  depName : String
  resolvedName : String
  normal : Option DependencyMetadataM
  build : Option DependencyMetadataM
  dev : Option DependencyMetadataM

/-- `DependencyEdge::dev_only` from guppy/src/graph/graph_impl.rs: the edge
carries neither normal nor build metadata. -/
def DependencyEdgeM.devOnly (e : DependencyEdgeM) : Bool :=
  e.normal.isNone && e.build.isNone

/-- One edge of the petgraph `Graph`: endpoint indices plus the payload. -/
structure EdgeG where
  src : Nat
  dst : Nat
  edge : DependencyEdgeM

/-- `PackageMetadata` from guppy/src/graph/graph_impl.rs, restricted to the
fields `verify` and `depends_on` read. -/
structure PackageG where
  id : String
  ix : Nat
  version : String
  workspacePath : Option String

/-- `PackageGraph` from guppy/src/graph/graph_impl.rs: the petgraph node
count, the id-keyed package table, the workspace's sorted
path-to-member map, and the edge list. -/
structure PackageGraphM where
  nodeCount : Nat
  packages : List PackageG
  workspaceMembers : List (String × String)
  edges : List EdgeG

/-- `PackageGraphData::metadata`: the package table entry for an id. -/
def PackageGraphM.metadata (g : PackageGraphM) (id : String) : Option PackageG :=
  g.packages.find? (fun p => p.id = id)

/-- `PackageGraph::package_ix`: the graph node index for an id. -/
def PackageGraphM.packageIx (g : PackageGraphM) (id : String) : Option Nat :=
  (g.metadata id).map (fun p => p.ix)

/-- The edge list as bare index pairs, as the reachability walk sees it. -/
def PackageGraphM.edgePairs (g : PackageGraphM) : List (Nat × Nat) :=
  g.edges.map (fun e => (e.src, e.dst))

/-- `DependsCache::depends_on` from guppy/src/graph/graph_impl.rs: resolve
both ids (failing with `UnknownPackageId` on the offending id), then ask
petgraph for a path.  `PackageGraph::depends_on` creates a fresh cache and
delegates here. -/
def PackageGraphM.dependsOn (g : PackageGraphM) (packageA packageB : String) :
    Except Error Bool :=
  match g.packageIx packageA with
  | none => .error (.unknownPackageId packageA)
  | some aIx =>
    match g.packageIx packageB with
    | none => .error (.unknownPackageId packageB)
    | some bIx => .ok (Reach.hasPathConnecting g.edgePairs aIx bIx)

/-- Claim C8: `depends_on(a, b)` returns `Ok(true)` exactly when a directed
path connects `a`'s node to `b`'s node in the forward package graph, and
returns `UnknownPackageId` carrying the offending id when a supplied id is
absent (`a` is resolved first).  `depends_on` borrows the graph immutably
(`&self` in the source), which the embedding reflects by being a pure
function of `g`. -/
theorem dependsOn_spec (g : PackageGraphM) (packageA packageB : String) :
    (∀ aIx bIx, g.packageIx packageA = some aIx → g.packageIx packageB = some bIx →
      (g.dependsOn packageA packageB = .ok true ↔
        Relation.ReflTransGen (Reach.rel g.edgePairs) aIx bIx)) ∧
    (g.packageIx packageA = none →
      g.dependsOn packageA packageB = .error (.unknownPackageId packageA)) ∧
    (∀ aIx, g.packageIx packageA = some aIx → g.packageIx packageB = none →
      g.dependsOn packageA packageB = .error (.unknownPackageId packageB)) := by
  refine ⟨?_, ?_, ?_⟩
  · intro aIx bIx ha hb
    simp only [PackageGraphM.dependsOn, ha, hb]
    rw [← Reach.hasPathConnecting_iff g.edgePairs aIx bIx]
    constructor
    · intro h
      exact Except.ok.inj h
    · intro h
      rw [h]
  · intro ha
    simp only [PackageGraphM.dependsOn, ha]
  · intro aIx ha hb
    simp only [PackageGraphM.dependsOn, ha, hb]

/-! ## Graph verification (guppy/src/graph/graph_impl.rs, `PackageGraph::verify`)

The semver crate's requirement matching is the parameter `semverMatches`.
`cargo_version_matches` (shown inline in the older graph.rs copy of
`verify`, line 119) accepts when the requirement equals the parsed `"*"`
requirement — carried here as its text — or when the semver crate accepts:
the `*` override is the engine's, the rest is the library's. -/

/-- `cargo_version_matches`: the `*` requirement accepts any version,
pre-releases included; otherwise defer to the semver library. -/
def cargoVersionMatches (semverMatches : String → String → Bool) (req ver : String) : Bool :=
  req = "*" || semverMatches req ver

/-- The `version_check` closure of `verify`: one populated dependency-kind
slot must match the resolved version. -/
def versionCheck (semverMatches : String → String → Bool) (fromId toId toVersion kind : String)
    (dm : DependencyMetadataM) : Except String Unit :=
  if cargoVersionMatches semverMatches dm.versionReq toVersion then .ok ()
  else
    .error
      (fromId ++ " -> " ++ toId ++ " (" ++ kind ++ "): version (" ++ toVersion ++
        ") does not match requirement (" ++ dm.versionReq ++ ")")

/-- `version_check` applied to an optional slot: absent slots pass. -/
def checkSlot (semverMatches : String → String → Bool) (fromId toId toVersion kind : String) :
    Option DependencyMetadataM → Except String Unit
  | none => .ok ()
  | some dm => versionCheck semverMatches fromId toId toVersion kind dm

/-- The per-link body of `verify`: the `to` metadata is looked up from the
edge target (the source panics when it is absent, which cannot happen for a
graph petgraph built; such edges are skipped here), each populated kind slot
is version-checked in the order normal, build, dev, and at least one slot
must be populated (`edge_set`). -/
def checkEdge (semverMatches : String → String → Bool) (g : PackageGraphM) (fromId : String)
    (e : EdgeG) : Except String Unit :=
  match g.packages.find? (fun p => p.ix = e.dst) with
  | none => .ok ()
  | some toPkg =>
    match checkSlot semverMatches fromId toPkg.id toPkg.version "normal" e.edge.normal with
    | .error err => .error err
    | .ok _ =>
      match checkSlot semverMatches fromId toPkg.id toPkg.version "build" e.edge.build with
      | .error err => .error err
      | .ok _ =>
        match checkSlot semverMatches fromId toPkg.id toPkg.version "dev" e.edge.dev with
        | .error err => .error err
        | .ok _ =>
          if e.edge.normal.isNone && e.edge.build.isNone && e.edge.dev.isNone then
            .error (fromId ++ " -> " ++ toPkg.id ++ ": no edge info found")
          else .ok ()

/-- The loop of `verify` over one package's outgoing links. -/
def checkEdges (semverMatches : String → String → Bool) (g : PackageGraphM) (fromId : String) :
    List EdgeG → Except String Unit
  | [] => .ok ()
  | e :: rest =>
    match checkEdge semverMatches g fromId e with
    | .error err => .error err
    | .ok _ => checkEdges semverMatches g fromId rest

/-- `Workspace::member_by_path`: lookup in the sorted member map. -/
def PackageGraphM.memberByPath (g : PackageGraphM) (path : String) : Option String :=
  (g.workspaceMembers.find? (fun m => m.1 = path)).map (fun m => m.2)

/-- `PackageGraph::dep_links_ixs_directed` restricted to outgoing edges. -/
def PackageGraphM.outEdges (g : PackageGraphM) (ix : Nat) : List EdgeG :=
  g.edges.filter (fun e => e.src = ix)

/-- The workspace consistency check of `verify`: a package with a workspace
path must be the member the workspace maps that path to, and a package with
none must not be a member. -/
def workspaceCheck (g : PackageGraphM) (p : PackageG) : Except String Unit :=
  match p.workspacePath with
  | some path =>
    if g.memberByPath path = some p.id then .ok ()
    else
      .error ("package " ++ p.id ++ " has workspace path " ++ path ++
        " but query by path did not return it")
  | none =>
    if (g.workspaceMembers.map (fun m => m.2)).contains p.id then
      .error ("package " ++ p.id ++ " has no workspace path but is in workspace")
    else .ok ()

/-- The per-package body of `verify`. -/
def checkPackage (semverMatches : String → String → Bool) (g : PackageGraphM) (p : PackageG) :
    Except String Unit :=
  match workspaceCheck g p with
  | .error err => .error err
  | .ok _ => checkEdges semverMatches g p.id (g.outEdges p.ix)

/-- The loop of `verify` over all packages. -/
def checkPackages (semverMatches : String → String → Bool) (g : PackageGraphM) :
    List PackageG → Except String Unit
  | [] => .ok ()
  | p :: rest =>
    match checkPackage semverMatches g p with
    | .error err => .error err
    | .ok _ => checkPackages semverMatches g rest

/-- `PackageGraph::verify` from guppy/src/graph/graph_impl.rs: the node
count must equal the package-table size, then every package's workspace
entry and outgoing links are checked.  The source contains no acyclicity
check (only a TODO noting that one should be added), and its final
`self.feature_graph()` call only forces the lazy feature graph, so it is not
part of the result. -/
def PackageGraphM.verify (g : PackageGraphM) (semverMatches : String → String → Bool) :
    Except Error Unit :=
  if g.nodeCount ≠ g.packages.length then
    .error (.packageGraphInternalError "number of nodes differs from packages")
  else
    match checkPackages semverMatches g g.packages with
    | .ok _ => .ok ()
    | .error msg => .error (.packageGraphInternalError msg)

/-- Sequencing two unit checks succeeds exactly when both do. -/
theorem exceptSeq_ok (x y : Except String Unit) :
    (match x with
      | .error err => Except.error err
      | .ok _ => y) = .ok () ↔ (x = .ok () ∧ y = .ok ()) := by
  cases x with
  | error err => simp
  | ok u => cases u; simp

theorem checkSlot_ok_iff (semverMatches : String → String → Bool)
    (fromId toId toVersion kind : String) (slot : Option DependencyMetadataM) :
    checkSlot semverMatches fromId toId toVersion kind slot = .ok () ↔
      ∀ dm, slot = some dm →
        cargoVersionMatches semverMatches dm.versionReq toVersion = true := by
  cases slot with
  | none => simp [checkSlot]
  | some dm =>
    simp only [checkSlot, versionCheck]
    split
    · simp_all
    · simp_all

theorem checkEdge_ok_iff (semverMatches : String → String → Bool) (g : PackageGraphM)
    (fromId : String) (e : EdgeG) :
    checkEdge semverMatches g fromId e = .ok () ↔
      ∀ toPkg, g.packages.find? (fun p => p.ix = e.dst) = some toPkg →
        ((∀ dm, e.edge.normal = some dm →
            cargoVersionMatches semverMatches dm.versionReq toPkg.version = true) ∧
         (∀ dm, e.edge.build = some dm →
            cargoVersionMatches semverMatches dm.versionReq toPkg.version = true) ∧
         (∀ dm, e.edge.dev = some dm →
            cargoVersionMatches semverMatches dm.versionReq toPkg.version = true) ∧
         (e.edge.normal.isNone && e.edge.build.isNone && e.edge.dev.isNone) = false) := by
  rw [checkEdge]
  cases hfind : g.packages.find? (fun p => p.ix = e.dst) with
  | none => simp
  | some toPkg =>
    rw [exceptSeq_ok, exceptSeq_ok, exceptSeq_ok]
    rw [checkSlot_ok_iff, checkSlot_ok_iff, checkSlot_ok_iff]
    constructor
    · rintro ⟨hn, hb, hd, hset⟩ toPkg' htp
      obtain rfl : toPkg = toPkg' := Option.some.inj htp
      refine ⟨hn, hb, hd, ?_⟩
      by_contra hcontra
      have : (e.edge.normal.isNone && e.edge.build.isNone && e.edge.dev.isNone) = true := by
        revert hcontra
        cases e.edge.normal.isNone && e.edge.build.isNone && e.edge.dev.isNone <;> simp
      rw [if_pos this] at hset
      exact absurd hset (by simp)
    · intro h
      obtain ⟨hn, hb, hd, hset⟩ := h toPkg rfl
      refine ⟨hn, hb, hd, ?_⟩
      rw [hset]
      simp

theorem checkEdges_ok_iff (semverMatches : String → String → Bool) (g : PackageGraphM)
    (fromId : String) (es : List EdgeG) :
    checkEdges semverMatches g fromId es = .ok () ↔
      ∀ e ∈ es, checkEdge semverMatches g fromId e = .ok () := by
  induction es with
  | nil => simp [checkEdges]
  | cons e rest ih =>
    rw [checkEdges, exceptSeq_ok, ih]
    simp

theorem checkPackage_ok_iff (semverMatches : String → String → Bool) (g : PackageGraphM)
    (p : PackageG) :
    checkPackage semverMatches g p = .ok () ↔
      (workspaceCheck g p = .ok () ∧
        checkEdges semverMatches g p.id (g.outEdges p.ix) = .ok ()) := by
  rw [checkPackage, exceptSeq_ok]

theorem checkPackages_ok_iff (semverMatches : String → String → Bool) (g : PackageGraphM)
    (ps : List PackageG) :
    checkPackages semverMatches g ps = .ok () ↔
      ∀ p ∈ ps, checkPackage semverMatches g p = .ok () := by
  induction ps with
  | nil => simp [checkPackages]
  | cons p rest ih =>
    rw [checkPackages, exceptSeq_ok, ih]
    simp

/-- `verify` succeeds exactly when the counts agree and every package passes
its workspace and edge checks. -/
theorem verify_ok_iff (g : PackageGraphM) (semverMatches : String → String → Bool) :
    g.verify semverMatches = .ok () ↔
      (g.nodeCount = g.packages.length ∧
        ∀ p ∈ g.packages, checkPackage semverMatches g p = .ok ()) := by
  rw [PackageGraphM.verify]
  split
  · rename_i hne
    constructor
    · intro h
      exact absurd h (by simp)
    · rintro ⟨hcount, _⟩
      exact absurd hcount hne
  · rename_i heq
    rw [not_ne_iff] at heq
    cases hcp : checkPackages semverMatches g g.packages with
    | ok u =>
      cases u
      rw [checkPackages_ok_iff] at hcp
      constructor
      · intro _
        exact ⟨heq, hcp⟩
      · intro _
        rfl
    | error msg =>
      have hnot : ¬ ∀ p ∈ g.packages, checkPackage semverMatches g p = .ok () := by
        rw [← checkPackages_ok_iff semverMatches g]
        simp [hcp]
      constructor
      · intro h
        exact absurd h (by simp)
      · rintro ⟨_, hall⟩
        exact absurd hall hnot

/-- Every error `verify` returns is a `PackageGraphInternalError`. -/
theorem verify_error_internal (g : PackageGraphM) (semverMatches : String → String → Bool)
    (h : g.verify semverMatches ≠ .ok ()) :
    ∃ msg, g.verify semverMatches = .error (.packageGraphInternalError msg) := by
  rw [PackageGraphM.verify] at h ⊢
  by_cases hc : g.nodeCount ≠ g.packages.length
  · rw [if_pos hc]
    exact ⟨_, rfl⟩
  · rw [if_neg hc] at h ⊢
    cases hcp : checkPackages semverMatches g g.packages with
    | ok u =>
      cases u
      rw [hcp] at h
      simp at h
    | error msg =>
      exact ⟨msg, rfl⟩

/-- A two-package graph whose one edge's normal requirement (`^1`) does not
match the resolved version `2.0.0`. -/
def badVersionGraph : PackageGraphM :=
  { nodeCount := 2
    packages :=
      [⟨"a-pkg 1.0.0", 0, "1.0.0", none⟩,
       ⟨"b-pkg 2.0.0", 1, "2.0.0", none⟩]
    workspaceMembers := []
    edges :=
      [⟨0, 1, ⟨"b-pkg", "b_pkg", some ⟨"^1", plainDep⟩, none, none⟩⟩] }

/-- A two-package graph whose one edge requires `*` of a pre-release
version. -/
def starOverrideGraph : PackageGraphM :=
  { nodeCount := 2
    packages :=
      [⟨"a-pkg 1.0.0", 0, "1.0.0", none⟩,
       ⟨"b-pkg 2.0.0-alpha.1", 1, "2.0.0-alpha.1", none⟩]
    workspaceMembers := []
    edges :=
      [⟨0, 1, ⟨"b-pkg", "b_pkg", some ⟨"*", plainDep⟩, none, none⟩⟩] }

/-- Claim C5: a populated kind slot passes verification exactly when its
requirement is textually `*` (which accepts anything, pre-releases included)
or the semver library accepts the resolved version; `verify` returns a
`PackageGraphInternalError` whenever some slot fails the check.  The third
conjunct runs `verify` on a concrete failing graph; the fourth shows the `*`
override passing a pre-release even when the semver library (the
`fun _ _ => false` parameter) rejects it. -/
theorem verify_version_requirements (semverMatches : String → String → Bool)
    (g : PackageGraphM) :
    (g.verify semverMatches = .ok () →
      ∀ p ∈ g.packages, ∀ e ∈ g.edges, e.src = p.ix →
        ∀ toPkg, g.packages.find? (fun q => q.ix = e.dst) = some toPkg →
          ∀ dm, (e.edge.normal = some dm ∨ e.edge.build = some dm ∨ e.edge.dev = some dm) →
            (dm.versionReq = "*" ∨ semverMatches dm.versionReq toPkg.version = true)) ∧
    (∀ p ∈ g.packages, ∀ e ∈ g.edges, e.src = p.ix →
      ∀ toPkg, g.packages.find? (fun q => q.ix = e.dst) = some toPkg →
        ∀ dm, (e.edge.normal = some dm ∨ e.edge.build = some dm ∨ e.edge.dev = some dm) →
          dm.versionReq ≠ "*" → semverMatches dm.versionReq toPkg.version = false →
            ∃ msg, g.verify semverMatches = .error (.packageGraphInternalError msg)) ∧
    (∃ msg, badVersionGraph.verify (fun _ _ => false) =
      .error (.packageGraphInternalError msg)) ∧
    (starOverrideGraph.verify (fun _ _ => false) = .ok ()) := by
  have hmain : g.verify semverMatches = .ok () →
      ∀ p ∈ g.packages, ∀ e ∈ g.edges, e.src = p.ix →
        ∀ toPkg, g.packages.find? (fun q => q.ix = e.dst) = some toPkg →
          ∀ dm, (e.edge.normal = some dm ∨ e.edge.build = some dm ∨ e.edge.dev = some dm) →
            (dm.versionReq = "*" ∨ semverMatches dm.versionReq toPkg.version = true) := by
    intro hok p hp e he hsrc toPkg hfind dm hslot
    rw [verify_ok_iff] at hok
    have hpkg := hok.2 p hp
    rw [checkPackage_ok_iff] at hpkg
    have hedges := hpkg.2
    rw [checkEdges_ok_iff] at hedges
    have hmem : e ∈ g.outEdges p.ix := by
      rw [PackageGraphM.outEdges, List.mem_filter]
      exact ⟨he, by simp [hsrc]⟩
    have hedge := hedges e hmem
    rw [checkEdge_ok_iff] at hedge
    obtain ⟨hn, hb, hd, _⟩ := hedge toPkg hfind
    have hcvm : cargoVersionMatches semverMatches dm.versionReq toPkg.version = true := by
      rcases hslot with h | h | h
      · exact hn dm h
      · exact hb dm h
      · exact hd dm h
    rw [cargoVersionMatches, Bool.or_eq_true, decide_eq_true_iff] at hcvm
    exact hcvm
  refine ⟨hmain, ?_, ?_, ?_⟩
  · intro p hp e he hsrc toPkg hfind dm hslot hstar hsm
    by_cases hok : g.verify semverMatches = .ok ()
    · rcases hmain hok p hp e he hsrc toPkg hfind dm hslot with h | h
      · exact absurd h hstar
      · rw [hsm] at h
        exact absurd h (by simp)
    · exact verify_error_internal g semverMatches hok
  · exact ⟨_, rfl⟩
  · rfl

/-- Two packages depending on each other through plain normal dependencies:
the subgraph without dev-only edges is a two-cycle. -/
def cyclicNormalGraph : PackageGraphM :=
  { nodeCount := 2
    packages :=
      [⟨"a-pkg 1.0.0", 0, "1.0.0", none⟩,
       ⟨"b-pkg 1.0.0", 1, "1.0.0", none⟩]
    workspaceMembers := []
    edges :=
      [⟨0, 1, ⟨"b-pkg", "b_pkg", some ⟨"*", plainDep⟩, none, none⟩⟩,
       ⟨1, 0, ⟨"a-pkg", "a_pkg", some ⟨"*", plainDep⟩, none, none⟩⟩] }

/-- Claim C2, exhibiting the divergence: in `cyclicNormalGraph` no edge is
dev-only and the edges form a directed cycle through node 0, yet
`PackageGraph::verify` returns `Ok(())` — the source performs no acyclicity
check at all (graph_impl.rs keeps only a TODO asking for one), where the
claim requires a `PackageGraphInternalError` for a cycle in the non-dev-only
subgraph. -/
theorem verify_ignores_nonDev_cycle :
    (∀ e ∈ cyclicNormalGraph.edges, e.edge.devOnly = false) ∧
    Relation.TransGen (Reach.rel cyclicNormalGraph.edgePairs) 0 0 ∧
    cyclicNormalGraph.verify (fun _ _ => false) = .ok () := by
  refine ⟨?_, ?_, rfl⟩
  · intro e he
    rw [cyclicNormalGraph] at he
    simp only [List.mem_cons, List.not_mem_nil, or_false] at he
    rcases he with rfl | rfl <;> rfl
  · have h01 : Reach.rel cyclicNormalGraph.edgePairs 0 1 := by
      rw [Reach.rel]
      simp [cyclicNormalGraph, PackageGraphM.edgePairs]
    have h10 : Reach.rel cyclicNormalGraph.edgePairs 1 0 := by
      rw [Reach.rel]
      simp [cyclicNormalGraph, PackageGraphM.edgePairs]
    exact Relation.TransGen.head h01 (Relation.TransGen.single h10)

/-! ## Feature graph construction (guppy/src/graph/feature/build.rs) -/

/-- `FeatureNode` from guppy's feature graph: a package index together with
a feature slot (`none` is the base node, `some i` the i-th entry of the
package's features map). -/
structure FeatureNode where
  packageIx : Nat
  featureIdx : Option Nat
  deriving DecidableEq, Repr

/-- `FeatureNode::base`. -/
def FeatureNode.base (packageIx : Nat) : FeatureNode :=
  ⟨packageIx, none⟩

/-- `FeatureGraphBuildState::split_feature_dep` from
guppy/src/graph/feature/build.rs: `rsplitn(2, '/')` yields the text after
the last `/` as the feature name and everything before it as the dependency
name; with no `/` there is no dependency name. -/
def splitFeatureDep (featureDep : String) : Option String × String :=
  let rev := featureDep.data.reverse
  let featRev := rev.takeWhile (fun c => c ≠ '/')
  if featRev.length = rev.length then (none, featureDep)
  else
    (some (String.mk ((rev.drop (featRev.length + 1)).reverse)),
     String.mk featRev.reverse)

/-- `takeWhile` passes over a block of satisfying elements and stops at the
first failing one. -/
theorem takeWhile_append_stop (p : Char → Bool) (l1 l2 : List Char) (x : Char)
    (h1 : ∀ c ∈ l1, p c = true) (h2 : p x = false) :
    (l1 ++ x :: l2).takeWhile p = l1 := by
  induction l1 with
  | nil => simp [List.takeWhile, h2]
  | cons c rest ih =>
    have hc : p c = true := h1 c (List.mem_cons_self c rest)
    have hrest : ∀ c' ∈ rest, p c' = true :=
      fun c' hc' => h1 c' (List.mem_cons_of_mem c hc')
    simp [List.takeWhile, hc, ih hrest]

/-- Claim C10: `split_feature_dep` splits at the last `/`: a token with no
slash yields no dependency name and the whole token as feature name; writing
a slash-containing token as `a ++ "/" ++ b` with `b` slash-free (so the
written slash is the last one), the feature name is `b` and the dependency
name is `a`; in particular `"a/b/c"` yields `("a/b", "c")`, not a split at
the first slash. -/
theorem splitFeatureDep_spec (a b t : String) :
    (('/' : Char) ∉ t.data → splitFeatureDep t = (none, t)) ∧
    (('/' : Char) ∉ b.data → splitFeatureDep (a ++ "/" ++ b) = (some a, b)) ∧
    (splitFeatureDep "a/b/c" = (some "a/b", "c")) := by
  refine ⟨?_, ?_, by decide⟩
  · intro hslash
    rw [splitFeatureDep]
    have hall : ∀ c ∈ t.data.reverse, (fun c => decide ¬(c = '/')) c = true := by
      intro c hc
      rw [List.mem_reverse] at hc
      simp only [decide_eq_true_iff]
      intro hceq
      rw [hceq] at hc
      exact hslash hc
    have htake : t.data.reverse.takeWhile (fun c => decide ¬(c = '/')) = t.data.reverse :=
      List.takeWhile_eq_self_iff.mpr hall
    simp only [htake]
    simp
  · intro hslash
    rw [splitFeatureDep]
    have hdata : (a ++ "/" ++ b).data = a.data ++ '/' :: b.data := by
      have h1 : (a ++ "/" ++ b).data = a.data ++ ("/" : String).data ++ b.data := by
        rw [String.data_append, String.data_append]
      rw [h1]
      simp
    have hrev : (a ++ "/" ++ b).data.reverse =
        (b.data.reverse ++ ['/']) ++ a.data.reverse := by
      rw [hdata]
      simp
    have hall : ∀ c ∈ b.data.reverse, (fun c => decide ¬(c = '/')) c = true := by
      intro c hc
      rw [List.mem_reverse] at hc
      simp only [decide_eq_true_iff]
      intro hceq
      rw [hceq] at hc
      exact hslash hc
    have htake : (a ++ "/" ++ b).data.reverse.takeWhile (fun c => decide ¬(c = '/')) =
        b.data.reverse := by
      rw [hrev, List.append_assoc, List.singleton_append]
      exact takeWhile_append_stop _ _ _ _ hall (by simp)
    simp only [htake]
    have hlen : b.data.reverse.length ≠ (a ++ "/" ++ b).data.reverse.length := by
      rw [hrev]
      simp only [List.length_append, List.length_reverse, List.length_singleton]
      omega
    rw [if_neg hlen]
    have hdrop : (a ++ "/" ++ b).data.reverse.drop (b.data.reverse.length + 1) =
        a.data.reverse := by
      rw [hrev]
      have : (b.data.reverse ++ ['/']).length = b.data.reverse.length + 1 := by
        simp
      rw [← this, List.drop_left]
    rw [hdrop]
    have ha : String.mk a.data.reverse.reverse = a := by
      cases a
      simp
    have hb : String.mk b.data.reverse.reverse = b := by
      cases b
      simp
    rw [ha, hb]

/-- petgraph's `Graph::update_edge`, over an explicit edge list keyed by
(source node, target node): when an edge for the ordered pair exists its
payload is replaced, otherwise the edge is appended.  Feature-graph
construction inserts every edge through this operation (`add_nodes` and
`add_edges` in guppy/src/graph/feature/build.rs). -/
def updateEdge {E : Type} (graph : List (FeatureNode × FeatureNode × E))
    (src dst : FeatureNode) (payload : E) : List (FeatureNode × FeatureNode × E) :=
  match graph with
  | [] => [(src, dst, payload)]
  | entry :: rest =>
    if entry.1 = src ∧ entry.2.1 = dst then (src, dst, payload) :: rest
    else entry :: updateEdge rest src dst payload

/-- The ordered endpoint pairs of an edge list. -/
def edgeKeys {E : Type} (graph : List (FeatureNode × FeatureNode × E)) :
    List (FeatureNode × FeatureNode) :=
  graph.map (fun entry => (entry.1, entry.2.1))

theorem edgeKeys_updateEdge {E : Type} (graph : List (FeatureNode × FeatureNode × E))
    (src dst : FeatureNode) (payload : E) :
    edgeKeys (updateEdge graph src dst payload) =
      if (src, dst) ∈ edgeKeys graph then edgeKeys graph
      else edgeKeys graph ++ [(src, dst)] := by
  induction graph with
  | nil => simp [updateEdge, edgeKeys]
  | cons entry rest ih =>
    rw [updateEdge]
    by_cases hkey : entry.1 = src ∧ entry.2.1 = dst
    · rw [if_pos hkey]
      have hmem : (src, dst) ∈ edgeKeys (entry :: rest) := by
        simp only [edgeKeys, List.map_cons, List.mem_cons]
        left
        rw [hkey.1, hkey.2]
      rw [if_pos hmem]
      simp only [edgeKeys, List.map_cons]
      rw [hkey.1, hkey.2]
    · rw [if_neg hkey]
      have hne : ((entry.1, entry.2.1) : FeatureNode × FeatureNode) ≠ (src, dst) := by
        intro hcontra
        exact hkey ⟨congrArg Prod.fst hcontra, congrArg Prod.snd hcontra⟩
      simp only [edgeKeys, List.map_cons] at ih ⊢
      rw [ih]
      by_cases hmem : (src, dst) ∈ List.map (fun entry => (entry.1, entry.2.1)) rest
      · rw [if_pos hmem, if_pos (List.mem_cons_of_mem _ hmem)]
      · rw [if_neg hmem]
        have : ((src, dst) : FeatureNode × FeatureNode) ∉
            (entry.1, entry.2.1) :: List.map (fun entry => (entry.1, entry.2.1)) rest := by
          simp only [List.mem_cons]
          rintro (hcontra | hcontra)
          · exact hne hcontra.symm
          · exact hmem hcontra
        rw [if_neg this]
        simp

theorem edgeKeys_updateEdge_nodup {E : Type} (graph : List (FeatureNode × FeatureNode × E))
    (src dst : FeatureNode) (payload : E) (h : (edgeKeys graph).Nodup) :
    (edgeKeys (updateEdge graph src dst payload)).Nodup := by
  rw [edgeKeys_updateEdge]
  by_cases hmem : (src, dst) ∈ edgeKeys graph
  · rw [if_pos hmem]
    exact h
  · rw [if_neg hmem]
    rw [List.nodup_append]
    exact ⟨h, List.nodup_singleton _, by simpa using hmem⟩

/-- Claim C9: because every edge insertion goes through `update_edge`, any
construction — any sequence of `(from, to, payload)` insertions starting
from the empty graph, which covers both the intra-package and the
cross-package phases — leaves at most one edge between each ordered pair of
feature nodes: a later insertion for an existing pair replaces the payload
instead of adding a parallel edge. -/
theorem feature_graph_no_parallel_edges {E : Type}
    (ops : List (FeatureNode × FeatureNode × E)) :
    (edgeKeys (ops.foldl (fun graph op => updateEdge graph op.1 op.2.1 op.2.2) [])).Nodup := by
  suffices h : ∀ start : List (FeatureNode × FeatureNode × E), (edgeKeys start).Nodup →
      (edgeKeys (ops.foldl (fun graph op => updateEdge graph op.1 op.2.1 op.2.2) start)).Nodup by
    exact h [] (by simp [edgeKeys])
  induction ops with
  | nil =>
    intro start hs
    exact hs
  | cons op rest ih =>
    intro start hs
    rw [List.foldl_cons]
    exact ih _ (edgeKeys_updateEdge_nodup start op.1 op.2.1 op.2.2 hs)

/-- `FeatureEdge` from guppy's feature graph, the variants the intra-package
phase produces. -/
inductive FeatureEdgeM where
  | featureToBase
  | featureDependency
  deriving DecidableEq, Repr

/-- `FeatureBuildStage` from guppy/src/errors.rs: where during construction
a warning occurred, with the package whose edges were being added. -/
inductive FeatureBuildStage where
  | addNamedFeatureEdges (packageId : String) (fromFeature : String)
  | addDependencyEdges (packageId : String) (depName : String)
  deriving DecidableEq, Repr

/-- `FeatureGraphWarning` from guppy/src/errors.rs: a requested feature is
missing from a package.  `package_id` is the package the feature was
requested from. -/
inductive FeatureGraphWarning where
  | missingFeature (stage : FeatureBuildStage) (packageId : String)
      (featureName : String)
  deriving DecidableEq, Repr

/-- The slice of `PackageMetadata` the feature-graph builder reads: the id,
the package index, and the insertion-ordered features map (`some deps` is a
named feature, `none` an optional dependency). -/
structure PackageFeatures where
  id : String
  packageIx : Nat
  features : List (String × Option (List String))

/-- `PackageMetadata::get_feature_idx`: the index of a feature name in the
features map. -/
def PackageFeatures.getFeatureIdx (p : PackageFeatures) (feature : String) :
    Option Nat :=
  p.features.findIdx? (fun f => f.1 = feature)

/-- `PackageMetadata::named_features_full`: the named features with their
indices and listed deps. -/
def PackageFeatures.namedFeaturesFull (p : PackageFeatures) :
    List (Nat × String × List String) :=
  p.features.enum.filterMap
    (fun x =>
      match x.2.2 with
      | some deps => some (x.1, x.2.1, deps)
      | none => none)

/-- `PackageMetadata::optional_deps_full`: the optional dependencies with
their indices. -/
def PackageFeatures.optionalDepsFull (p : PackageFeatures) : List (Nat × String) :=
  p.features.enum.filterMap
    (fun x =>
      match x.2.2 with
      | some _ => none
      | none => some (x.1, x.2.1))

/-- `FeatureGraphBuildState` from guppy/src/graph/feature/build.rs: the
feature graph under construction and the warnings collected so far.  Edges
are keyed directly by `FeatureNode` (the source keys them by the
`NodeIndex` its node map assigns, one per distinct node); `add_edges` panics
when an endpoint node was never added, which the modelled phases never do
since `add_nodes` has added every node of every package first. -/
structure FeatureGraphBuildState where
  graph : List (FeatureNode × FeatureNode × FeatureEdgeM)
  warnings : List FeatureGraphWarning

/-- `FeatureGraphBuildState::add_nodes`: nodes for the base package and
every feature, plus a `FeatureToBase` edge from each feature node (named or
optional-dep) to the base. -/
def FeatureGraphBuildState.addNodes (st : FeatureGraphBuildState)
    (package : PackageFeatures) : FeatureGraphBuildState :=
  let base := FeatureNode.base package.packageIx
  let graph1 := package.namedFeaturesFull.foldl
    (fun gacc nf => updateEdge gacc ⟨package.packageIx, some nf.1⟩ base .featureToBase)
    st.graph
  let graph2 := package.optionalDepsFull.foldl
    (fun gacc od => updateEdge gacc ⟨package.packageIx, some od.1⟩ base .featureToBase)
    graph1
  { st with graph := graph2 }

/-- The dependency-name lookup `add_named_feature_edges` builds from
`dep_links`: dependency name to the `to`-package metadata. -/
def lookupDep (depMap : List (String × PackageFeatures)) (name : String) :
    Option PackageFeatures :=
  (depMap.find? (fun d => d.1 = name)).map (fun d => d.2)

/-- The `filter_map` body of `add_named_feature_edges` for one feature-dep
token: accumulate the resolved `to`-node, or a `MissingFeature` warning when
the named feature is absent (stage `AddNamedFeatureEdges` with the declaring
package and feature; `package_id` the package the feature was requested
from); a token whose dependency name resolves to no package is skipped
silently. -/
def processFeatureDep (metadata : PackageFeatures)
    (depMap : List (String × PackageFeatures)) (namedFeature : String)
    (acc : List FeatureNode × List FeatureGraphWarning) (featureDep : String) :
    List FeatureNode × List FeatureGraphWarning :=
  match splitFeatureDep featureDep with
  | (some depName, toFeatureName) =>
    match lookupDep depMap depName with
    | some toMetadata =>
      match toMetadata.getFeatureIdx toFeatureName with
      | some toFeatureIdx =>
        (acc.1 ++ [⟨toMetadata.packageIx, some toFeatureIdx⟩], acc.2)
      | none =>
        (acc.1,
         acc.2 ++ [.missingFeature (.addNamedFeatureEdges metadata.id namedFeature)
           toMetadata.id toFeatureName])
    | none => acc
  | (none, toFeatureName) =>
    match metadata.getFeatureIdx toFeatureName with
    | some toFeatureIdx =>
      (acc.1 ++ [⟨metadata.packageIx, some toFeatureIdx⟩], acc.2)
    | none =>
      (acc.1,
       acc.2 ++ [.missingFeature (.addNamedFeatureEdges metadata.id namedFeature)
         metadata.id toFeatureName])

/-- `FeatureGraphBuildState::add_named_feature_edges`: for each named
feature, resolve its feature-dep tokens into `to`-nodes (collecting
warnings), then add a `FeatureDependency` edge to each resolved node. -/
def FeatureGraphBuildState.addNamedFeatureEdges (st : FeatureGraphBuildState)
    (metadata : PackageFeatures) (depMap : List (String × PackageFeatures)) :
    FeatureGraphBuildState :=
  metadata.namedFeaturesFull.foldl
    (fun stAcc nf =>
      let fromNode : FeatureNode := ⟨metadata.packageIx, some nf.1⟩
      let run := nf.2.2.foldl (processFeatureDep metadata depMap nf.2.1)
        ([], stAcc.warnings)
      { graph := run.1.foldl
          (fun gacc toNode => updateEdge gacc fromNode toNode .featureDependency)
          stAcc.graph
        warnings := run.2 })
    st

/-- Package `A` of the missing-feature scenario: one named feature
`"bad" = ["C/ghost"]`. -/
def packageA : PackageFeatures :=
  { id := "A-id", packageIx := 0, features := [("bad", some ["C/ghost"])] }

/-- Package `C` of the missing-feature scenario: it has no feature
`ghost`. -/
def packageC : PackageFeatures :=
  { id := "C-id", packageIx := 1, features := [("real", some [])] }

/-- The missing-feature scenario run end to end: nodes for both packages,
then `A`'s named-feature edges with `C` resolved as dependency `"C"`. -/
def scenarioState : FeatureGraphBuildState :=
  (((⟨[], []⟩ : FeatureGraphBuildState).addNodes packageA).addNodes
      packageC).addNamedFeatureEdges packageA [("C", packageC)]

/-- Counterexample to claim C3 as stated: the single recorded warning's
`package_id` field is `C`'s id (the package missing the feature), not `A`'s
— `A`'s id appears only inside the stage. -/
theorem missingFeature_warning_package_id :
    scenarioState.warnings =
      [.missingFeature (.addNamedFeatureEdges "A-id" "bad") "C-id" "ghost"] ∧
    ("C-id" : String) ≠ "A-id" := by
  constructor
  · rfl
  · decide

/-- Claim C3 as amended: construction does not fail; the `FeatureDependency`
edge for the unresolvable token is omitted (no such edge exists at all);
exactly one `MissingFeature` warning is recorded, with stage
`AddNamedFeatureEdges{package_id = A, from_feature = "bad"}`, `package_id`
`C` (the package the feature was requested from) and feature_name `ghost`.
The final conjunct states the general shape: whenever a token `dep/feat`
resolves to a package lacking `feat`, no `to`-node is produced and exactly
that warning is appended. -/
theorem missingFeature_warning_recorded :
    (scenarioState.warnings =
      [.missingFeature (.addNamedFeatureEdges "A-id" "bad") "C-id" "ghost"]) ∧
    (∀ entry ∈ scenarioState.graph, entry.2.2 ≠ FeatureEdgeM.featureDependency) ∧
    (scenarioState.graph =
      [(⟨0, some 0⟩, FeatureNode.base 0, .featureToBase),
       (⟨1, some 0⟩, FeatureNode.base 1, .featureToBase)]) ∧
    (∀ metadata depMap namedFeature acc featureDep depName toFeatureName toMetadata,
      splitFeatureDep featureDep = (some depName, toFeatureName) →
      lookupDep depMap depName = some toMetadata →
      toMetadata.getFeatureIdx toFeatureName = none →
      processFeatureDep metadata depMap namedFeature acc featureDep =
        (acc.1,
         acc.2 ++ [.missingFeature (.addNamedFeatureEdges metadata.id namedFeature)
           toMetadata.id toFeatureName])) := by
  refine ⟨rfl, ?_, rfl, ?_⟩
  · intro entry hentry
    have hg : scenarioState.graph =
        [(⟨0, some 0⟩, FeatureNode.base 0, .featureToBase),
         (⟨1, some 0⟩, FeatureNode.base 1, .featureToBase)] := rfl
    rw [hg] at hentry
    simp only [List.mem_cons, List.not_mem_nil, or_false] at hentry
    rcases hentry with rfl | rfl <;> decide
  · intro metadata depMap namedFeature acc featureDep depName toFeatureName toMetadata
      hsplit hlookup hidx
    simp [processFeatureDep, hsplit, hlookup, hidx]

/-! ## The Cargo-compatible resolver (spec section 4.5)

Modelled from the spec: the resolver and feature-graph query code is not
among the source files; the v1 algorithm below follows spec section 4.5
word for word.  Starting from the query's seed feature nodes it performs a
forward reachability over the feature graph, including a cross-package edge
iff its kind is admitted (dev only when the source package is in the
workspace and `include_dev` is set) and its platform predicate holds on the
target or the host platform; the unified node set is returned as both the
target-side and host-side activated set. -/

/-- `DependencyKind` of cargo_metadata: the three dependency kinds. -/
inductive DependencyKind where
  | normal
  | build
  | development
  deriving DecidableEq, Repr

/-- Modelled from the spec: a feature-graph edge as the resolver traverses
it.  Within-package edges (`FeatureToBase`, `FeatureDependency`) carry no
kind and an `Always` predicate; cross-package edges carry their dependency
kind and platform predicate. -/
structure ResolverEdge where
  source : FeatureNode
  dest : FeatureNode
  crossKind : Option DependencyKind
  predicate : TargetPredicate

/-- `CargoOptions` from the spec: include dev dependencies, and the target
and host platforms. -/
structure CargoOptions where
  includeDev : Bool
  targetPlatform : Platform
  hostPlatform : Platform

/-- A predicate holds on a platform when it evaluates to `Ok(true)`. -/
def predHoldsOn (tp : TargetPredicate) (platform : Platform) : Bool :=
  match tp.eval platform with
  | .ok b => b
  | .error _ => false

/-- Modelled from the spec: the v1 edge filter.  Normal and build edges are
always followed; development edges only from workspace packages with
`include_dev` set; the platform predicate must hold on the target or the
host platform (v1 does not partition by platform). -/
def includeEdge (workspaceIxs : List Nat) (opts : CargoOptions) (e : ResolverEdge) :
    Bool :=
  (match e.crossKind with
   | none => true
   | some .normal => true
   | some .build => true
   | some .development =>
     workspaceIxs.contains e.source.packageIx && opts.includeDev) &&
  (predHoldsOn e.predicate opts.targetPlatform ||
   predHoldsOn e.predicate opts.hostPlatform)

/-- Modelled from the spec: the unified activated node set of the v1
resolver — forward reachability from the seeds over the included edges. -/
def resolveUnified (workspaceIxs : List Nat) (opts : CargoOptions)
    (edges : List ResolverEdge) (seeds : Finset FeatureNode) : Finset FeatureNode :=
  Reach.closure
    ((edges.filter (includeEdge workspaceIxs opts)).map (fun e => (e.source, e.dest)))
    seeds

/-- `CargoSet` from the spec: the target-side and host-side activated
feature sets. -/
structure CargoSet where
  targetFeatures : Finset FeatureNode
  hostFeatures : Finset FeatureNode

/-- Modelled from the spec: the v1 resolver output — the target-side and
host-side sets are identical copies of the unification. -/
def resolveCargo (workspaceIxs : List Nat) (opts : CargoOptions)
    (edges : List ResolverEdge) (seeds : Finset FeatureNode) : CargoSet :=
  { targetFeatures := resolveUnified workspaceIxs opts edges seeds
    hostFeatures := resolveUnified workspaceIxs opts edges seeds }

/-- Claim C4: enlarging the query by one feature node only grows the output:
every feature node of the original target-side and host-side activated sets
is in the enlarged query's sets, and so is every activated package (the
image under the node's package index).  The edge filter depends only on the
edge and the options, never on the seeds, so reachability is monotone in the
seed set. -/
theorem resolver_monotonic (workspaceIxs : List Nat) (opts : CargoOptions)
    (edges : List ResolverEdge) (seeds : Finset FeatureNode) (extra : FeatureNode) :
    ((resolveCargo workspaceIxs opts edges seeds).targetFeatures ⊆
      (resolveCargo workspaceIxs opts edges (insert extra seeds)).targetFeatures) ∧
    ((resolveCargo workspaceIxs opts edges seeds).hostFeatures ⊆
      (resolveCargo workspaceIxs opts edges (insert extra seeds)).hostFeatures) ∧
    (Finset.image FeatureNode.packageIx
        (resolveCargo workspaceIxs opts edges seeds).targetFeatures ⊆
      Finset.image FeatureNode.packageIx
        (resolveCargo workspaceIxs opts edges (insert extra seeds)).targetFeatures) ∧
    (Finset.image FeatureNode.packageIx
        (resolveCargo workspaceIxs opts edges seeds).hostFeatures ⊆
      Finset.image FeatureNode.packageIx
        (resolveCargo workspaceIxs opts edges (insert extra seeds)).hostFeatures) := by
  have hmono : resolveUnified workspaceIxs opts edges seeds ⊆
      resolveUnified workspaceIxs opts edges (insert extra seeds) := by
    apply Reach.closure_mono
    exact Finset.subset_insert extra seeds
  exact ⟨hmono, hmono, Finset.image_subset_image hmono, Finset.image_subset_image hmono⟩
